import Mathlib

/-!
Verification of the headless virtualized-grid engine
(react-virtual-data-grid).

The TypeScript source is shallowly embedded: JS numbers used at integer
values are modelled as `Int`, `Math.floor(a / b)` as `Int.fdiv`,
`Math.ceil(a / b)` as the negated floor of the negation, `array[i]`
(which yields `undefined` out of range) as an `Option`-valued lookup,
and the asynchronous validator of the edit engine as an explicit
function from values to results.
-/

/-- JS Math.floor of an integer quotient (floor division). -/
def jsFloorDiv (a b : Int) : Int := Int.fdiv a b

/-- JS Math.ceil of an integer quotient (ceiling division). -/
def jsCeilDiv (a b : Int) : Int := -(Int.fdiv (-a) b)

/-- JS bracket indexing into an array: out-of-range access yields undefined,
modelled as none. -/
def jsIndex (l : List Int) (i : Int) : Option Int :=
  if 0 ≤ i ∧ i.toNat < l.length then some (l.getD i.toNat 0) else none

/-! ### grid-engine/types.ts -/

structure GridColumn where
  id : String
  width : Int
  pinned : Bool
  editable : Bool
deriving DecidableEq

structure GridSchema where
  columns : List GridColumn
deriving DecidableEq

structure CellPosition where
  rowIndex : Int
  colIndex : Int
deriving DecidableEq

structure RowRange where
  startRow : Int
  endRow : Int
deriving DecidableEq

structure ColumnMetrics where
  offsets : List Int
  totalWidth : Int
  pinnedWidth : Int
  pinnedCount : Int
deriving DecidableEq

/-! ### grid-engine/virtualization.ts -/

/-- calculateVisibleRows from virtualization.ts. -/
def calculateVisibleRows (scrollTop rowHeight viewportHeight totalRows overscan : Int) :
    RowRange :=
  let firstVisibleRow := jsFloorDiv scrollTop rowHeight
  let lastVisibleRow := jsCeilDiv (scrollTop + viewportHeight) rowHeight
  { startRow := max 0 (firstVisibleRow - overscan)
    endRow := min (totalRows - 1) (lastVisibleRow + overscan) }

/-- computeColumnOffsets from virtualization.ts: cumulative widths, starting at 0. -/
def computeColumnOffsetsGo (cumulative : Int) : List GridColumn → List Int
  | [] => []
  | c :: rest => (cumulative + c.width) :: computeColumnOffsetsGo (cumulative + c.width) rest

def computeColumnOffsets (columns : List GridColumn) : List Int :=
  0 :: computeColumnOffsetsGo 0 columns

/-- The while-loop of findFirstVisibleColumn, with an explicit iteration bound
(the interval shrinks every step, so offsets.length + 1 iterations always
suffice; this is proved as part of the equivalence with the linear scan). -/
def firstLoop (scrollLeft : Int) (offsets : List Int) :
    Nat → Int → Int → Int → Int
  | 0, _, _, result => result
  | fuel + 1, left, right, result =>
    if left ≤ right then
      let mid := jsFloorDiv (left + right) 2
      match jsIndex offsets mid with
      | none => result
      | some offset =>
        if offset ≤ scrollLeft then firstLoop scrollLeft offsets fuel (mid + 1) right mid
        else firstLoop scrollLeft offsets fuel left (mid - 1) result
    else result

/-- findFirstVisibleColumn from virtualization.ts: binary search for the
largest index with offsets[i] <= scrollLeft. -/
def findFirstVisibleColumn (scrollLeft : Int) (offsets : List Int) : Int :=
  firstLoop scrollLeft offsets (offsets.length + 1) 0 ((offsets.length : Int) - 1) 0

/-- The while-loop of findLastVisibleColumn, with an explicit iteration bound. -/
def lastLoop (scrollRight : Int) (offsets : List Int) :
    Nat → Int → Int → Int → Int
  | 0, _, _, result => result
  | fuel + 1, left, right, result =>
    if left ≤ right then
      let mid := jsFloorDiv (left + right) 2
      match jsIndex offsets mid with
      | none => result
      | some offset =>
        if offset < scrollRight then lastLoop scrollRight offsets fuel (mid + 1) right result
        else lastLoop scrollRight offsets fuel left (mid - 1) mid
    else result

/-- findLastVisibleColumn from virtualization.ts: binary search for the
smallest index with offsets[i] >= scrollRight, then stepped back by one
(clamped below at 0). -/
def findLastVisibleColumn (scrollRight : Int) (offsets : List Int) : Int :=
  max 0
    (lastLoop scrollRight offsets (offsets.length + 1) 0 ((offsets.length : Int) - 1)
        ((offsets.length : Int) - 1) - 1)

/-- Modelled from the spec: an exhaustive linear scan over the offsets array
with the same invariant as findFirstVisibleColumn (largest index i with
offsets[i] <= scrollLeft, defaulting to 0). Scans every index. -/
def linearFirstAux (scrollLeft : Int) : List Int → Nat → Int → Int
  | [], _, result => result
  | o :: rest, i, result =>
    linearFirstAux scrollLeft rest (i + 1) (if o ≤ scrollLeft then (i : Int) else result)

def linearFirstVisibleColumn (scrollLeft : Int) (offsets : List Int) : Int :=
  linearFirstAux scrollLeft offsets 0 0

/-- Modelled from the spec: an exhaustive linear scan with the same invariant
as findLastVisibleColumn (smallest index i with offsets[i] >= scrollRight,
defaulting to offsets.length - 1, then stepped back by one, clamped at 0). -/
def linearSmallestGEAux (scrollRight : Int) : List Int → Nat → Option Int
  | [], _ => none
  | o :: rest, i =>
    if scrollRight ≤ o then some (i : Int) else linearSmallestGEAux scrollRight rest (i + 1)

def linearLastVisibleColumn (scrollRight : Int) (offsets : List Int) : Int :=
  max 0 ((linearSmallestGEAux scrollRight offsets 0).getD ((offsets.length : Int) - 1) - 1)

/-! ### grid-engine/layout.ts -/

structure Position where
  x : Int
  y : Int
deriving DecidableEq

/-- calculateCellPosition from layout.ts. -/
def calculateCellPosition (position : CellPosition) (rowHeight : Int)
    (columnMetrics : ColumnMetrics) (scrollLeft : Int) (infiniteColumns : Bool)
    (defaultColumnWidth : Int) (isHeader : Bool) : Position :=
  let y := position.rowIndex * rowHeight
  let columnOffset : Int :=
    if infiniteColumns ∧ (columnMetrics.offsets.length : Int) ≤ position.colIndex then
      position.colIndex * defaultColumnWidth
    else
      (jsIndex columnMetrics.offsets position.colIndex).getD 0
  let isPinned := position.colIndex < columnMetrics.pinnedCount
  let x :=
    if isHeader then
      if isPinned then columnOffset else columnOffset - scrollLeft
    else
      if isPinned then columnOffset + scrollLeft else columnOffset - scrollLeft
  { x := x, y := y }

/-! ### grid-engine/keyboard.ts -/

inductive ArrowDirection where
  | ArrowUp
  | ArrowDown
  | ArrowLeft
  | ArrowRight
deriving DecidableEq

/-- handleArrowKey from keyboard.ts (the function takes no unbounded-column
mode flag; every direction clamps). -/
def handleArrowKey (currentPosition : CellPosition) (direction : ArrowDirection)
    (schema : GridSchema) (totalRows : Int) : CellPosition :=
  let totalCols : Int := schema.columns.length
  match direction with
  | .ArrowUp => { currentPosition with rowIndex := max 0 (currentPosition.rowIndex - 1) }
  | .ArrowDown =>
      { currentPosition with rowIndex := min (totalRows - 1) (currentPosition.rowIndex + 1) }
  | .ArrowLeft => { currentPosition with colIndex := max 0 (currentPosition.colIndex - 1) }
  | .ArrowRight =>
      { currentPosition with colIndex := min (totalCols - 1) (currentPosition.colIndex + 1) }

/-- handleTabKey from keyboard.ts. -/
def handleTabKey (currentPosition : CellPosition) (isShift : Bool)
    (schema : GridSchema) (totalRows : Int) : CellPosition :=
  let totalCols : Int := schema.columns.length
  if isShift then
    if 0 < currentPosition.colIndex then
      { rowIndex := currentPosition.rowIndex, colIndex := currentPosition.colIndex - 1 }
    else if 0 < currentPosition.rowIndex then
      { rowIndex := currentPosition.rowIndex - 1, colIndex := totalCols - 1 }
    else currentPosition
  else
    if currentPosition.colIndex < totalCols - 1 then
      { rowIndex := currentPosition.rowIndex, colIndex := currentPosition.colIndex + 1 }
    else if currentPosition.rowIndex < totalRows - 1 then
      { rowIndex := currentPosition.rowIndex + 1, colIndex := 0 }
    else currentPosition

inductive HomeEndKey where
  | homeKey
  | endKey
deriving DecidableEq

/-- handleHomeEndKey from keyboard.ts. -/
def handleHomeEndKey (currentPosition : CellPosition) (key : HomeEndKey) (isCtrl : Bool)
    (schema : GridSchema) (totalRows : Int) : CellPosition :=
  let totalCols : Int := schema.columns.length
  match key with
  | .homeKey =>
    if isCtrl then { rowIndex := 0, colIndex := 0 }
    else { rowIndex := currentPosition.rowIndex, colIndex := 0 }
  | .endKey =>
    if isCtrl then { rowIndex := totalRows - 1, colIndex := totalCols - 1 }
    else { rowIndex := currentPosition.rowIndex, colIndex := totalCols - 1 }

inductive PageKey where
  | pageUp
  | pageDown
deriving DecidableEq

/-- handlePageKey from keyboard.ts. -/
def handlePageKey (currentPosition : CellPosition) (key : PageKey)
    (rowHeight viewportHeight totalRows : Int) : CellPosition :=
  let rowsPerPage := jsFloorDiv viewportHeight rowHeight
  match key with
  | .pageDown =>
    { currentPosition with
        rowIndex := min (totalRows - 1) (currentPosition.rowIndex + rowsPerPage) }
  | .pageUp =>
    { currentPosition with rowIndex := max 0 (currentPosition.rowIndex - rowsPerPage) }

/-- A focus position is inside the grid bounds. -/
def inBoundsPos (p : CellPosition) (totalRows totalCols : Int) : Prop :=
  0 ≤ p.rowIndex ∧ p.rowIndex < totalRows ∧ 0 ≤ p.colIndex ∧ p.colIndex < totalCols

instance (p : CellPosition) (r c : Int) : Decidable (inBoundsPos p r c) := by
  unfold inBoundsPos; infer_instance

/-! ### grid-engine/edit-engine.ts -/

/-- Cell values: the primitive JS values the grid stores, with strict
equality modelled by decidable equality on this sum. -/
inductive CellValue where
  | str (s : String)
  | num (n : Int)
  | boolean (b : Bool)
  | null
  | undefinedValue
deriving DecidableEq

/-- JS String(value) coercion. -/
def jsString : CellValue → String
  | .str s => s
  | .num n => toString n
  | .boolean b => if b then "true" else "false"
  | .null => "null"
  | .undefinedValue => "undefined"

inductive EditStatus where
  | idle
  | editing
  | pending
  | success
  | error
deriving DecidableEq

structure EditState where
  position : CellPosition
  originalValue : CellValue
  currentValue : CellValue
  status : EditStatus
  error : Option String
deriving DecidableEq

structure ValidationResult where
  isValid : Bool
  error : Option String
deriving DecidableEq

/-- createEditState from edit-engine.ts. -/
def createEditState (position : CellPosition) (value : CellValue) : EditState :=
  { position := position, originalValue := value, currentValue := value,
    status := .editing, error := none }

/-- updateEditValue from edit-engine.ts. -/
def updateEditValue (state : EditState) (newValue : CellValue) : EditState :=
  { state with currentValue := newValue }

/-- markEditPending from edit-engine.ts. -/
def markEditPending (state : EditState) : EditState :=
  { state with status := .pending, error := none }

/-- markEditSuccess from edit-engine.ts. -/
def markEditSuccess (state : EditState) : EditState :=
  { state with status := .success, error := none }

/-- markEditError from edit-engine.ts. -/
def markEditError (state : EditState) (error : String) : EditState :=
  { state with status := .error, error := some error }

/-- hasEditChanged from edit-engine.ts (strict inequality of values). -/
def hasEditChanged (state : EditState) : Bool :=
  state.currentValue ≠ state.originalValue

structure CommitResult where
  state : EditState
  value : CellValue
deriving DecidableEq

/-- processEditCommit from edit-engine.ts; the awaited asynchronous validator
is modelled as a function from the draft value to its result. -/
def processEditCommit (state : EditState) (validator : CellValue → ValidationResult) :
    CommitResult :=
  if ¬ hasEditChanged state then
    { state := markEditSuccess state, value := state.originalValue }
  else
    let pendingState := markEditPending state
    let result := validator state.currentValue
    if result.isValid then
      { state := markEditSuccess pendingState, value := state.currentValue }
    else
      { state := markEditError pendingState (result.error.getD "Validation failed"),
        value := state.originalValue }

/-! ### grid-engine/sort-engine.ts -/

inductive SortDirection where
  | asc
  | desc
  | none
deriving DecidableEq

structure SortDescriptor where
  columnId : String
  direction : SortDirection
deriving DecidableEq

/-- A row of the dataset: a record from column id to cell value.  A key
absent from the record reads as undefined, as in JS. -/
structure GridRow where
  cells : List (String × CellValue)
deriving DecidableEq

def rowGet (row : GridRow) (key : String) : CellValue :=
  match row.cells.lookup key with
  | some v => v
  | Option.none => .undefinedValue

/-- localeCompare modelled as the code-point comparison on strings,
returning a negative, zero or positive integer. -/
def strCmp (a b : String) : Int :=
  if a < b then -1 else if b < a then 1 else 0

/-- The comparison of two differing cell values inside multiSortData's
comparator: numeric difference when both are numbers, string coercion
otherwise, scaled by the direction multiplier. -/
def valCmp (valueA valueB : CellValue) (multiplier : Int) : Int :=
  match valueA, valueB with
  | .num x, .num y => (x - y) * multiplier
  | _, _ => strCmp (jsString valueA) (jsString valueB) * multiplier

/-- The comparator closed over the sort stack in multiSortData: the first
active descriptor whose two values differ (by strict equality) decides,
numerically when both values are numbers and by string coercion otherwise;
if every descriptor ties, the rows' id fields are compared as strings. -/
def sortCmp (sortStack : List SortDescriptor) (rowA rowB : GridRow) : Int :=
  match sortStack with
  | [] => strCmp (jsString (rowGet rowA "id")) (jsString (rowGet rowB "id"))
  | d :: rest =>
    if d.direction = .none then sortCmp rest rowA rowB
    else
      let valueA := rowGet rowA d.columnId
      let valueB := rowGet rowB d.columnId
      if valueA = valueB then sortCmp rest rowA rowB
      else valCmp valueA valueB (if d.direction = .asc then 1 else -1)

/-- Insert an element into an already processed suffix: the element is
placed before the first entry it compares ≤ 0 against, so that entries
comparing equal keep their original relative order (a stable sort, as
Array.prototype.sort guarantees). -/
def sortInsert (cmp : GridRow → GridRow → Int) (x : GridRow) :
    List GridRow → List GridRow
  | [] => [x]
  | y :: ys => if cmp x y ≤ 0 then x :: y :: ys else y :: sortInsert cmp x ys

/-- A stable comparison sort, modelling [...data].sort(comparator). -/
def stableSort (cmp : GridRow → GridRow → Int) : List GridRow → List GridRow
  | [] => []
  | x :: xs => sortInsert cmp x (stableSort cmp xs)

/-- multiSortData from sort-engine.ts: an empty stack returns the data
untouched; otherwise a fresh sorted copy is produced. -/
def multiSortData (data : List GridRow) (sortStack : List SortDescriptor) :
    List GridRow :=
  if sortStack = [] then data else stableSort (sortCmp sortStack) data

/-- Two rows tie on every active descriptor of the stack (strict value
equality on each non-none descriptor's column). -/
def tiesOn (sortStack : List SortDescriptor) (rowA rowB : GridRow) : Prop :=
  ∀ d ∈ sortStack, d.direction ≠ .none → rowGet rowA d.columnId = rowGet rowB d.columnId

instance (s : List SortDescriptor) (a b : GridRow) : Decidable (tiesOn s a b) := by
  unfold tiesOn; infer_instance

/-- Each active descriptor's column holds values of a single comparison
type across the dataset: all numbers, or all strings.  Under this
condition the comparator is a total preorder (mixed-type columns can make
the JS comparator intransitive, in which case Array.prototype.sort's
output is implementation-defined). -/
def homogeneousColumns (data : List GridRow) (sortStack : List SortDescriptor) : Prop :=
  ∀ d ∈ sortStack, d.direction ≠ .none →
    (∀ r ∈ data, ∃ n, rowGet r d.columnId = .num n) ∨
    (∀ r ∈ data, ∃ s, rowGet r d.columnId = .str s)

instance (data : List GridRow) (s : List SortDescriptor) :
    Decidable (homogeneousColumns data s) := by
  unfold homogeneousColumns
  have : ∀ (v : CellValue), Decidable (∃ n, v = CellValue.num n) := by
    intro v
    cases v with
    | num n => exact isTrue ⟨n, rfl⟩
    | str s => exact isFalse (by rintro ⟨n, h⟩; cases h)
    | boolean b => exact isFalse (by rintro ⟨n, h⟩; cases h)
    | null => exact isFalse (by rintro ⟨n, h⟩; cases h)
    | undefinedValue => exact isFalse (by rintro ⟨n, h⟩; cases h)
  have : ∀ (v : CellValue), Decidable (∃ s, v = CellValue.str s) := by
    intro v
    cases v with
    | str s => exact isTrue ⟨s, rfl⟩
    | num n => exact isFalse (by rintro ⟨s, h⟩; cases h)
    | boolean b => exact isFalse (by rintro ⟨s, h⟩; cases h)
    | null => exact isFalse (by rintro ⟨s, h⟩; cases h)
    | undefinedValue => exact isFalse (by rintro ⟨s, h⟩; cases h)
  infer_instance

/-- A two-column schema used to exercise navigation at the right edge. -/
def twoColumnSchema : GridSchema :=
  { columns := [{ id := "a", width := 100, pinned := false, editable := false },
                { id := "b", width := 100, pinned := false, editable := false }] }

/-! ### Helper lemmas about floor and ceiling division -/

theorem jsFloorDiv_char (a b : Int) (hb : 0 < b) :
    b * jsFloorDiv a b ≤ a ∧ a < b * (jsFloorDiv a b + 1) := by
  unfold jsFloorDiv
  rw [Int.fdiv_eq_ediv _ (le_of_lt hb)]
  have h1 := Int.ediv_add_emod a b
  have h2 := Int.emod_nonneg a (ne_of_gt hb)
  have h3 := Int.emod_lt_of_pos a hb
  have h4 : b * (a / b + 1) = b * (a / b) + b := by ring
  constructor <;> linarith

theorem jsFloorDiv_eq (a b q : Int) (hb : 0 < b)
    (h1 : b * q ≤ a) (h2 : a < b * (q + 1)) : jsFloorDiv a b = q := by
  have hc := jsFloorDiv_char a b hb
  by_contra hne
  rcases lt_or_gt_of_ne hne with h | h
  · have : b * (jsFloorDiv a b + 1) ≤ b * q :=
      mul_le_mul_of_nonneg_left (by omega) (le_of_lt hb)
    linarith [hc.2]
  · have : b * (q + 1) ≤ b * jsFloorDiv a b :=
      mul_le_mul_of_nonneg_left (by omega) (le_of_lt hb)
    linarith [hc.1]

theorem jsCeilDiv_char (a b : Int) (hb : 0 < b) :
    b * (jsCeilDiv a b - 1) < a ∧ a ≤ b * jsCeilDiv a b := by
  unfold jsCeilDiv
  rw [Int.fdiv_eq_ediv _ (le_of_lt hb)]
  have h1 := Int.ediv_add_emod (-a) b
  have h2 := Int.emod_nonneg (-a) (ne_of_gt hb)
  have h3 := Int.emod_lt_of_pos (-a) hb
  have h4 : b * (-(-a / b) - 1) = -(b * (-a / b)) - b := by ring
  have h5 : b * -(-a / b) = -(b * (-a / b)) := by ring
  constructor <;> linarith

theorem jsCeilDiv_eq (a b r : Int) (hb : 0 < b)
    (h1 : b * (r - 1) < a) (h2 : a ≤ b * r) : jsCeilDiv a b = r := by
  have hc := jsCeilDiv_char a b hb
  by_contra hne
  rcases lt_or_gt_of_ne hne with h | h
  · have hstep : jsCeilDiv a b ≤ r - 1 := by omega
    have : b * jsCeilDiv a b ≤ b * (r - 1) :=
      mul_le_mul_of_nonneg_left hstep (le_of_lt hb)
    linarith [hc.2]
  · have hstep : r ≤ jsCeilDiv a b - 1 := by omega
    have : b * r ≤ b * (jsCeilDiv a b - 1) :=
      mul_le_mul_of_nonneg_left hstep (le_of_lt hb)
    linarith [hc.1]

theorem jsFloorDiv_nonneg (a b : Int) (ha : 0 ≤ a) (hb : 0 ≤ b) : 0 ≤ jsFloorDiv a b :=
  Int.fdiv_nonneg ha hb

theorem jsCeilDiv_pos (a b : Int) (ha : 0 < a) (hb : 0 < b) : 1 ≤ jsCeilDiv a b := by
  have hc := jsCeilDiv_char a b hb
  by_contra h
  have hle : jsCeilDiv a b ≤ 0 := by omega
  have : b * jsCeilDiv a b ≤ b * 0 := mul_le_mul_of_nonneg_left hle (le_of_lt hb)
  simp at this
  linarith [hc.2]

theorem jsFloorDiv_le_jsCeilDiv (a c b : Int) (hac : a ≤ c) (hb : 0 < b) :
    jsFloorDiv a b ≤ jsCeilDiv c b := by
  have h1 := jsFloorDiv_char a b hb
  have h2 := jsCeilDiv_char c b hb
  by_contra h
  have : b * (jsCeilDiv c b + 1) ≤ b * jsFloorDiv a b :=
    mul_le_mul_of_nonneg_left (by omega) (le_of_lt hb)
  have hx : b * (jsCeilDiv c b + 1) = b * jsCeilDiv c b + b := by ring
  linarith [h1.1, h2.2]

/-! ### Claim theorems -/

/-- C1: for every scrollTop, rowHeight > 0, viewportHeight, overscan and
rowCount, calculateVisibleRows returns startRow = max(0,
floor(scrollTop/rowHeight) - overscan) and endRow = min(rowCount - 1,
ceil((scrollTop+viewportHeight)/rowHeight) + overscan), where q and r are
the floor and ceiling of the respective quotients, characterized by the
bracketing hypotheses; in particular rowCount 50000, rowHeight 40,
viewportHeight 600, scrollTop 4000 and overscan 5 give exactly rows
95..120. -/
theorem c1_row_window_formula
    (scrollTop rowHeight viewportHeight totalRows overscan q r : Int)
    (hb : 0 < rowHeight)
    (hq1 : rowHeight * q ≤ scrollTop) (hq2 : scrollTop < rowHeight * (q + 1))
    (hr1 : rowHeight * (r - 1) < scrollTop + viewportHeight)
    (hr2 : scrollTop + viewportHeight ≤ rowHeight * r) :
    calculateVisibleRows scrollTop rowHeight viewportHeight totalRows overscan =
      { startRow := max 0 (q - overscan), endRow := min (totalRows - 1) (r + overscan) } ∧
    calculateVisibleRows 4000 40 600 50000 5 = { startRow := 95, endRow := 120 } := by
  constructor
  · unfold calculateVisibleRows
    rw [jsFloorDiv_eq scrollTop rowHeight q hb hq1 hq2,
      jsCeilDiv_eq (scrollTop + viewportHeight) rowHeight r hb hr1 hr2]
  · decide

theorem c1_row_window_formula_witness :
    calculateVisibleRows 4000 40 600 50000 5 = { startRow := 95, endRow := 120 } :=
  (c1_row_window_formula 4000 40 600 50000 5 100 115 (by decide) (by decide) (by decide)
    (by decide) (by decide)).2

/-- C8 as stated is false: the code never returns an empty marker; at
rowCount = 0 (scrollTop 0, rowHeight 40, viewportHeight 600, overscan 5)
it returns the raw range with startRow = 0 and endRow = -1, so a range
with start > end is returned. -/
theorem c8_start_gt_end_counterexample :
    calculateVisibleRows 0 40 600 0 5 = { startRow := 0, endRow := -1 } ∧
    (calculateVisibleRows 0 40 600 0 5).endRow <
      (calculateVisibleRows 0 40 600 0 5).startRow := by
  decide

/-- C8 amended: for 0 ≤ scrollTop, rowHeight > 0, viewportHeight > 0 and
overscan ≥ 0, the range always satisfies 0 ≤ start and end ≤ rowCount - 1;
and whenever additionally rowCount ≥ 1 and the scrolled-to window still
overlaps the dataset (floor(scrollTop/rowHeight) - overscan ≤ rowCount - 1),
start ≤ end also holds.  When rowCount = 0, or scrollTop lies beyond the
last row, the function returns a range with start > end (no empty marker
exists in the code), and viewportHeight ≤ 0 is not special-cased. -/
theorem c8_row_range_bounds_amended
    (scrollTop rowHeight viewportHeight totalRows overscan : Int)
    (hst : 0 ≤ scrollTop) (hrh : 0 < rowHeight) (hvh : 0 < viewportHeight)
    (hov : 0 ≤ overscan) (htr : 1 ≤ totalRows)
    (hwin : jsFloorDiv scrollTop rowHeight - overscan ≤ totalRows - 1) :
    0 ≤ (calculateVisibleRows scrollTop rowHeight viewportHeight totalRows overscan).startRow ∧
    (calculateVisibleRows scrollTop rowHeight viewportHeight totalRows overscan).endRow ≤
      totalRows - 1 ∧
    (calculateVisibleRows scrollTop rowHeight viewportHeight totalRows overscan).startRow ≤
      (calculateVisibleRows scrollTop rowHeight viewportHeight totalRows overscan).endRow := by
  have e1 : (calculateVisibleRows scrollTop rowHeight viewportHeight totalRows overscan).startRow
      = max 0 (jsFloorDiv scrollTop rowHeight - overscan) := rfl
  have e2 : (calculateVisibleRows scrollTop rowHeight viewportHeight totalRows overscan).endRow
      = min (totalRows - 1) (jsCeilDiv (scrollTop + viewportHeight) rowHeight + overscan) := rfl
  have hfirst : 0 ≤ jsFloorDiv scrollTop rowHeight :=
    jsFloorDiv_nonneg _ _ hst (le_of_lt hrh)
  have hlast : 1 ≤ jsCeilDiv (scrollTop + viewportHeight) rowHeight :=
    jsCeilDiv_pos _ _ (by omega) hrh
  have hfl : jsFloorDiv scrollTop rowHeight ≤ jsCeilDiv (scrollTop + viewportHeight) rowHeight :=
    jsFloorDiv_le_jsCeilDiv _ _ _ (by omega) hrh
  rw [e1, e2]
  omega

theorem c8_row_range_bounds_amended_witness :
    0 ≤ (calculateVisibleRows 4000 40 600 50000 5).startRow ∧
    (calculateVisibleRows 4000 40 600 50000 5).endRow ≤ 50000 - 1 ∧
    (calculateVisibleRows 4000 40 600 50000 5).startRow ≤
      (calculateVisibleRows 4000 40 600 50000 5).endRow :=
  c8_row_range_bounds_amended 4000 40 600 50000 5 (by decide) (by decide) (by decide)
    (by decide) (by decide) (by decide)

/-- C2: calculateCellPosition computes x context-dependently: for an
in-schema column with offset off = offsets[colIndex], a header cell gets
x = off when pinned and x = off - scrollLeft otherwise, while a body cell
gets x = off + scrollLeft when pinned and x = off - scrollLeft otherwise. -/
theorem c2_cell_position_contexts (p : CellPosition) (rowHeight : Int)
    (m : ColumnMetrics) (scrollLeft defaultColumnWidth : Int) (infiniteColumns : Bool)
    (h0 : 0 ≤ p.colIndex) (h1 : p.colIndex.toNat < m.offsets.length) :
    (p.colIndex < m.pinnedCount →
      (calculateCellPosition p rowHeight m scrollLeft infiniteColumns
          defaultColumnWidth true).x = m.offsets.getD p.colIndex.toNat 0 ∧
      (calculateCellPosition p rowHeight m scrollLeft infiniteColumns
          defaultColumnWidth false).x = m.offsets.getD p.colIndex.toNat 0 + scrollLeft) ∧
    (m.pinnedCount ≤ p.colIndex →
      (calculateCellPosition p rowHeight m scrollLeft infiniteColumns
          defaultColumnWidth true).x = m.offsets.getD p.colIndex.toNat 0 - scrollLeft ∧
      (calculateCellPosition p rowHeight m scrollLeft infiniteColumns
          defaultColumnWidth false).x = m.offsets.getD p.colIndex.toNat 0 - scrollLeft) := by
  have hji : jsIndex m.offsets p.colIndex = some (m.offsets.getD p.colIndex.toNat 0) := by
    unfold jsIndex
    rw [if_pos ⟨h0, h1⟩]
  have hni : ¬(infiniteColumns = true ∧ (m.offsets.length : Int) ≤ p.colIndex) := by
    rintro ⟨-, hle⟩
    omega
  constructor
  · intro hp
    constructor <;>
      simp [calculateCellPosition, hji, hni, hp]
  · intro hp
    have hp' : ¬ p.colIndex < m.pinnedCount := not_lt.mpr hp
    constructor <;>
      simp [calculateCellPosition, hji, hni, hp']

theorem c2_cell_position_contexts_witness :
    ((0:Int) ≤ 0 ∧ (0:Int).toNat < 3 ∧ (0:Int) < 1) ∧
    (calculateCellPosition ⟨2, 0⟩ 40 ⟨[0, 80, 280], 280, 80, 1⟩ 30 false 150 true).x = 0 ∧
    (calculateCellPosition ⟨2, 0⟩ 40 ⟨[0, 80, 280], 280, 80, 1⟩ 30 false 150 false).x = 0 + 30 ∧
    (calculateCellPosition ⟨2, 1⟩ 40 ⟨[0, 80, 280], 280, 80, 1⟩ 30 false 150 true).x = 80 - 30 ∧
    (calculateCellPosition ⟨2, 1⟩ 40 ⟨[0, 80, 280], 280, 80, 1⟩ 30 false 150 false).x = 80 - 30 := by
  refine ⟨by decide, ?_, ?_, ?_, ?_⟩
  · exact ((c2_cell_position_contexts ⟨2, 0⟩ 40 ⟨[0, 80, 280], 280, 80, 1⟩ 30 150 false
      (by decide) (by decide)).1 (by decide)).1
  · exact ((c2_cell_position_contexts ⟨2, 0⟩ 40 ⟨[0, 80, 280], 280, 80, 1⟩ 30 150 false
      (by decide) (by decide)).1 (by decide)).2
  · exact ((c2_cell_position_contexts ⟨2, 1⟩ 40 ⟨[0, 80, 280], 280, 80, 1⟩ 30 150 false
      (by decide) (by decide)).2 (by decide)).1
  · exact ((c2_cell_position_contexts ⟨2, 1⟩ 40 ⟨[0, 80, 280], 280, 80, 1⟩ 30 150 false
      (by decide) (by decide)).2 (by decide)).2

/-- C3: for every edit state whose currentValue differs from originalValue
and every validator that resolves with isValid = false carrying an error
message, processEditCommit returns a payload whose value equals
originalValue (rollback) and whose state has status error carrying the
validator's message. -/
theorem c3_invalid_commit_rolls_back (state : EditState)
    (validator : CellValue → ValidationResult) (msg : String)
    (hch : state.currentValue ≠ state.originalValue)
    (hinv : (validator state.currentValue).isValid = false)
    (hmsg : (validator state.currentValue).error = some msg) :
    (processEditCommit state validator).value = state.originalValue ∧
    (processEditCommit state validator).state.status = EditStatus.error ∧
    (processEditCommit state validator).state.error = some msg := by
  have hc : hasEditChanged state = true := by
    unfold hasEditChanged
    simp [hch]
  unfold processEditCommit
  rw [hc]
  simp [hinv, hmsg, markEditError, markEditPending]

theorem c3_invalid_commit_rolls_back_witness :
    (processEditCommit ⟨⟨0, 0⟩, .str "old", .str "new", .editing, none⟩
        (fun _ => ⟨false, some "bad value"⟩)).value = CellValue.str "old" ∧
    (processEditCommit ⟨⟨0, 0⟩, .str "old", .str "new", .editing, none⟩
        (fun _ => ⟨false, some "bad value"⟩)).state.status = EditStatus.error ∧
    (processEditCommit ⟨⟨0, 0⟩, .str "old", .str "new", .editing, none⟩
        (fun _ => ⟨false, some "bad value"⟩)).state.error = some "bad value" :=
  c3_invalid_commit_rolls_back ⟨⟨0, 0⟩, .str "old", .str "new", .editing, none⟩
    (fun _ => ⟨false, some "bad value"⟩) "bad value" (by decide) rfl rfl

/-- C4: for every edit state with currentValue equal to originalValue,
processEditCommit never invokes the validator (its result does not depend
on the validator at all) and returns status success with value equal to
originalValue. -/
theorem c4_noop_commit_skips_validator (state : EditState)
    (v1 v2 : CellValue → ValidationResult)
    (h : state.currentValue = state.originalValue) :
    processEditCommit state v1 = processEditCommit state v2 ∧
    (processEditCommit state v1).state.status = EditStatus.success ∧
    (processEditCommit state v1).value = state.originalValue := by
  have hc : hasEditChanged state = false := by
    unfold hasEditChanged
    simp [h]
  unfold processEditCommit
  rw [hc]
  simp [markEditSuccess]

theorem c4_noop_commit_skips_validator_witness :
    processEditCommit ⟨⟨0, 0⟩, .num 7, .num 7, .editing, none⟩ (fun _ => ⟨false, some "x"⟩) =
      processEditCommit ⟨⟨0, 0⟩, .num 7, .num 7, .editing, none⟩ (fun _ => ⟨true, none⟩) ∧
    (processEditCommit ⟨⟨0, 0⟩, .num 7, .num 7, .editing, none⟩
        (fun _ => ⟨false, some "x"⟩)).state.status = EditStatus.success ∧
    (processEditCommit ⟨⟨0, 0⟩, .num 7, .num 7, .editing, none⟩
        (fun _ => ⟨false, some "x"⟩)).value = CellValue.num 7 :=
  c4_noop_commit_skips_validator ⟨⟨0, 0⟩, .num 7, .num 7, .editing, none⟩
    (fun _ => ⟨false, some "x"⟩) (fun _ => ⟨true, none⟩) (by decide)

/-- C10: every edit-state transition preserves the session's position and
originalValue: updateEditValue changes only currentValue, and
markEditPending, markEditSuccess and markEditError change only status and
error, so the rollback target captured at createEditState is unchanged
throughout the session. -/
theorem c10_edit_frame_conditions (s : EditState) (v : CellValue) (e : String)
    (p : CellPosition) (seed : CellValue) :
    ((updateEditValue s v).position = s.position ∧
     (updateEditValue s v).originalValue = s.originalValue ∧
     (updateEditValue s v).status = s.status ∧
     (updateEditValue s v).error = s.error ∧
     (updateEditValue s v).currentValue = v) ∧
    ((markEditPending s).position = s.position ∧
     (markEditPending s).originalValue = s.originalValue ∧
     (markEditPending s).currentValue = s.currentValue) ∧
    ((markEditSuccess s).position = s.position ∧
     (markEditSuccess s).originalValue = s.originalValue ∧
     (markEditSuccess s).currentValue = s.currentValue) ∧
    ((markEditError s e).position = s.position ∧
     (markEditError s e).originalValue = s.originalValue ∧
     (markEditError s e).currentValue = s.currentValue) ∧
    (createEditState p seed).originalValue = seed :=
  ⟨⟨rfl, rfl, rfl, rfl, rfl⟩, ⟨rfl, rfl, rfl⟩, ⟨rfl, rfl, rfl⟩, ⟨rfl, rfl, rfl⟩, rfl⟩

/-- C7 failing case: handleArrowKey in the shipped keyboard.ts takes no
unbounded-column-mode flag; from column 1 of a two-column schema,
ArrowRight clamps to the schema's last column and does not return
colIndex + 1 = 2 as the claim requires for unbounded mode. -/
theorem c7_arrow_right_clamps_at_schema :
    handleArrowKey ⟨0, 1⟩ .ArrowRight twoColumnSchema 5 = ⟨0, 1⟩ ∧
    handleArrowKey ⟨0, 1⟩ .ArrowRight twoColumnSchema 5 ≠ ⟨0, 1 + 1⟩ := by
  decide

/-- C5: for every grid with rowCount ≥ 1 and columnCount ≥ 1, every
in-bounds position and every navigation action (arrow, tab, home/end,
page with a positive row height and nonnegative viewport height), the
navigation functions return an in-bounds position; in particular ArrowUp
at (0,0) stays at (0,0), and ArrowDown at the bottom-right cell stays
there. -/
theorem c5_navigation_total (schema : GridSchema) (totalRows : Int) (p : CellPosition)
    (direction : ArrowDirection) (isShift : Bool) (hek : HomeEndKey) (isCtrl : Bool)
    (pk : PageKey) (rowHeight viewportHeight : Int)
    (hr : 1 ≤ totalRows) (hc : 1 ≤ (schema.columns.length : Int))
    (hp : inBoundsPos p totalRows schema.columns.length)
    (hrh : 0 < rowHeight) (hvh : 0 ≤ viewportHeight) :
    inBoundsPos (handleArrowKey p direction schema totalRows)
      totalRows schema.columns.length ∧
    inBoundsPos (handleTabKey p isShift schema totalRows)
      totalRows schema.columns.length ∧
    inBoundsPos (handleHomeEndKey p hek isCtrl schema totalRows)
      totalRows schema.columns.length ∧
    inBoundsPos (handlePageKey p pk rowHeight viewportHeight totalRows)
      totalRows schema.columns.length ∧
    handleArrowKey ⟨0, 0⟩ .ArrowUp schema totalRows = ⟨0, 0⟩ ∧
    handleArrowKey ⟨totalRows - 1, (schema.columns.length : Int) - 1⟩ .ArrowDown
      schema totalRows = ⟨totalRows - 1, (schema.columns.length : Int) - 1⟩ := by
  obtain ⟨h1, h2, h3, h4⟩ := hp
  have hpage : 0 ≤ jsFloorDiv viewportHeight rowHeight :=
    jsFloorDiv_nonneg _ _ hvh (le_of_lt hrh)
  refine ⟨?_, ?_, ?_, ?_, ?_, ?_⟩
  · cases direction <;> simp [handleArrowKey, inBoundsPos] <;> omega
  · cases isShift <;> simp [handleTabKey, inBoundsPos] <;> split_ifs <;> (try simp) <;> omega
  · cases hek <;> cases isCtrl <;> simp [handleHomeEndKey, inBoundsPos] <;> omega
  · cases pk <;> simp [handlePageKey, inBoundsPos] <;> omega
  · simp [handleArrowKey]
  · simp [handleArrowKey]

theorem c5_navigation_total_witness :
    inBoundsPos (handleArrowKey ⟨1, 1⟩ .ArrowRight twoColumnSchema 3)
      3 twoColumnSchema.columns.length ∧
    inBoundsPos (handleTabKey ⟨1, 1⟩ true twoColumnSchema 3)
      3 twoColumnSchema.columns.length ∧
    inBoundsPos (handleHomeEndKey ⟨1, 1⟩ .endKey true twoColumnSchema 3)
      3 twoColumnSchema.columns.length ∧
    inBoundsPos (handlePageKey ⟨1, 1⟩ .pageDown 40 600 3)
      3 twoColumnSchema.columns.length ∧
    handleArrowKey ⟨0, 0⟩ .ArrowUp twoColumnSchema 3 = ⟨0, 0⟩ ∧
    handleArrowKey ⟨3 - 1, (twoColumnSchema.columns.length : Int) - 1⟩ .ArrowDown
      twoColumnSchema 3 = ⟨3 - 1, (twoColumnSchema.columns.length : Int) - 1⟩ :=
  c5_navigation_total twoColumnSchema 3 ⟨1, 1⟩ .ArrowRight true .endKey true .pageDown 40 600
    (by decide) (by decide) (by decide) (by decide) (by decide)

/-! ### Helper lemmas for the binary searches (C9) -/

theorem jsIndex_in_range (l : List Int) (i : Int) (h0 : 0 ≤ i) (h1 : i.toNat < l.length) :
    jsIndex l i = some (l.getD i.toNat 0) := by
  unfold jsIndex
  rw [if_pos ⟨h0, h1⟩]

theorem getD_eq_getElem (l : List Int) (k : Nat) (hk : k < l.length) :
    l.getD k 0 = l[k] := by
  rw [List.getD_eq_getElem?_getD, List.getElem?_eq_getElem hk]
  rfl

theorem pairwise_getD_mono (l : List Int) (hp : List.Pairwise (· ≤ ·) l)
    (i j : Nat) (hij : i ≤ j) (hj : j < l.length) : l.getD i 0 ≤ l.getD j 0 := by
  rcases Nat.eq_or_lt_of_le hij with h | h
  · rw [h]
  · rw [getD_eq_getElem l i (lt_trans h hj), getD_eq_getElem l j hj]
    exact List.pairwise_iff_getElem.mp hp i j (lt_trans h hj) hj h

theorem linearFirstAux_of_forall_gt (sl : Int) (B : List Int) :
    ∀ (i : Nat) (res : Int),
      (∀ k, k < B.length → sl < B.getD k 0) →
      linearFirstAux sl B i res = res := by
  induction B with
  | nil => intro i res _; rfl
  | cons o rest ih =>
    intro i res h
    have ho : sl < o := by
      have := h 0 (by simp)
      simpa using this
    unfold linearFirstAux
    rw [if_neg (not_le.mpr ho)]
    exact ih (i + 1) res (fun k hk => by
      have := h (k + 1) (by simpa using Nat.succ_lt_succ hk)
      simpa using this)

theorem linearFirstAux_of_forall_le (sl : Int) (A : List Int) :
    ∀ (i : Nat) (res : Int), A ≠ [] →
      (∀ k, k < A.length → A.getD k 0 ≤ sl) →
      linearFirstAux sl A i res = (i : Int) + A.length - 1 := by
  induction A with
  | nil => intro i res h _; exact absurd rfl h
  | cons o rest ih =>
    intro i res _ h
    have ho : o ≤ sl := by
      have := h 0 (by simp)
      simpa using this
    unfold linearFirstAux
    rw [if_pos ho]
    rcases List.eq_nil_or_concat rest with hr | _
    · subst hr
      simp [linearFirstAux]
    · by_cases hr : rest = []
      · subst hr
        simp [linearFirstAux]
      · rw [ih (i + 1) (i : Int) hr (fun k hk => by
          have := h (k + 1) (by simpa using Nat.succ_lt_succ hk)
          simpa using this)]
        simp only [List.length_cons]
        push_cast
        ring

theorem linearFirstAux_append (sl : Int) (A : List Int) :
    ∀ (B : List Int) (i : Nat) (res : Int),
      linearFirstAux sl (A ++ B) i res =
        linearFirstAux sl B (i + A.length) (linearFirstAux sl A i res) := by
  induction A with
  | nil => intro B i res; simp [linearFirstAux]
  | cons o rest ih =>
    intro B i res
    show linearFirstAux sl (rest ++ B) (i + 1) _ = _
    rw [ih B (i + 1) _]
    have : i + 1 + rest.length = i + (o :: rest).length := by simp; omega
    rw [this]
    rfl

theorem getD_take (l : List Int) (n k : Nat) (h : k < n) :
    (l.take n).getD k 0 = l.getD k 0 := by
  rw [List.getD_eq_getElem?_getD, List.getD_eq_getElem?_getD, List.getElem?_take_of_lt h]

theorem getD_drop (l : List Int) (n k : Nat) :
    (l.drop n).getD k 0 = l.getD (n + k) 0 := by
  rw [List.getD_eq_getElem?_getD, List.getD_eq_getElem?_getD, List.getElem?_drop]

theorem linearFirst_boundary (sl : Int) (offs : List Int) (l : Nat)
    (hl : l ≤ offs.length)
    (hbelow : ∀ k, k < l → offs.getD k 0 ≤ sl)
    (habove : ∀ k, l ≤ k → k < offs.length → sl < offs.getD k 0) :
    linearFirstVisibleColumn sl offs = if l = 0 then 0 else (l : Int) - 1 := by
  have htl : (offs.take l).length = l := by
    rw [List.length_take]
    omega
  have hsplit : offs.take l ++ offs.drop l = offs := List.take_append_drop l offs
  unfold linearFirstVisibleColumn
  rw [← hsplit, linearFirstAux_append, htl]
  have hdrop : ∀ k, k < (offs.drop l).length → sl < (offs.drop l).getD k 0 := by
    intro k hk
    rw [getD_drop]
    have hk' : l + k < offs.length := by
      rw [List.length_drop] at hk
      omega
    exact habove (l + k) (by omega) hk'
  rw [linearFirstAux_of_forall_gt sl (offs.drop l) _ _ hdrop]
  by_cases h0 : l = 0
  · subst h0
    simp [linearFirstAux]
  · have hne : offs.take l ≠ [] := by
      intro hcon
      rw [hcon] at htl
      simp at htl
      omega
    rw [linearFirstAux_of_forall_le sl (offs.take l) 0 0 hne (fun k hk => by
      rw [htl] at hk
      rw [getD_take offs l k hk]
      exact hbelow k hk)]
    rw [if_neg h0, htl]
    push_cast
    ring

theorem firstLoop_correct (sl : Int) (offs : List Int)
    (hmono : ∀ i j : Nat, i ≤ j → j < offs.length → offs.getD i 0 ≤ offs.getD j 0) :
    ∀ (fuel : Nat) (l r res : Int),
      (r + 1 - l).toNat < fuel →
      0 ≤ l → r ≤ (offs.length : Int) - 1 → l ≤ r + 1 →
      (∀ k : Nat, k < offs.length → (k : Int) < l → offs.getD k 0 ≤ sl) →
      (∀ k : Nat, k < offs.length → r < (k : Int) → sl < offs.getD k 0) →
      ((l = 0 ∧ res = 0) ∨ (1 ≤ l ∧ res = l - 1)) →
      firstLoop sl offs fuel l r res = linearFirstVisibleColumn sl offs := by
  intro fuel
  induction fuel with
  | zero => intro l r res hfuel _ _ _ _ _ _; omega
  | succ n ih =>
    intro l r res hfuel h0 hr hlr hbelow habove hres
    by_cases hcase : l ≤ r
    · have hmb : l ≤ jsFloorDiv (l + r) 2 ∧ jsFloorDiv (l + r) 2 ≤ r := by
        unfold jsFloorDiv
        rw [Int.fdiv_eq_ediv _ (by norm_num)]
        omega
      set mid := jsFloorDiv (l + r) 2 with hmiddef
      have hmid0 : 0 ≤ mid := le_trans h0 hmb.1
      have hmlen : mid.toNat < offs.length := by omega
      have hjs : jsIndex offs mid = some (offs.getD mid.toNat 0) :=
        jsIndex_in_range offs mid hmid0 hmlen
      show (if l ≤ r then
          match jsIndex offs mid with
          | none => res
          | some offset =>
            if offset ≤ sl then firstLoop sl offs n (mid + 1) r mid
            else firstLoop sl offs n l (mid - 1) res
        else res) = linearFirstVisibleColumn sl offs
      rw [if_pos hcase, hjs]
      by_cases hle : offs.getD mid.toNat 0 ≤ sl
      · show (if offs.getD mid.toNat 0 ≤ sl then firstLoop sl offs n (mid + 1) r mid
            else firstLoop sl offs n l (mid - 1) res) = _
        rw [if_pos hle]
        apply ih (mid + 1) r mid (by omega) (by omega) hr (by omega)
        · intro k hk hkm
          by_cases hkl : (k : Int) < l
          · exact hbelow k hk hkl
          · have hkmid : k ≤ mid.toNat := by omega
            exact le_trans (hmono k mid.toNat hkmid hmlen) hle
        · exact habove
        · right
          constructor
          · omega
          · omega
      · show (if offs.getD mid.toNat 0 ≤ sl then firstLoop sl offs n (mid + 1) r mid
            else firstLoop sl offs n l (mid - 1) res) = _
        rw [if_neg hle]
        have hgt : sl < offs.getD mid.toNat 0 := not_le.mp hle
        apply ih l (mid - 1) res (by omega) h0 (by omega) (by omega) hbelow
        · intro k hk hkm
          by_cases hkr : r < (k : Int)
          · exact habove k hk hkr
          · have hkmid : mid.toNat ≤ k := by omega
            exact lt_of_lt_of_le hgt (hmono mid.toNat k hkmid hk)
        · exact hres
    · show (if l ≤ r then
          match jsIndex offs (jsFloorDiv (l + r) 2) with
          | none => res
          | some offset =>
            if offset ≤ sl then firstLoop sl offs n (jsFloorDiv (l + r) 2 + 1) r
              (jsFloorDiv (l + r) 2)
            else firstLoop sl offs n l (jsFloorDiv (l + r) 2 - 1) res
        else res) = linearFirstVisibleColumn sl offs
      rw [if_neg hcase]
      rcases hres with ⟨hl0, hres0⟩ | ⟨hl1, hres1⟩
      · rw [linearFirst_boundary sl offs 0 (by omega) (by omega)
          (fun k _ hk => habove k hk (by omega))]
        simpa using hres0
      · rw [linearFirst_boundary sl offs l.toNat (by omega)
          (fun k hk => hbelow k (by omega) (by omega))
          (fun k hk1 hk2 => habove k hk2 (by omega))]
        rw [if_neg (by omega)]
        omega

theorem findFirst_eq_linear (sl : Int) (offs : List Int)
    (hmono : ∀ i j : Nat, i ≤ j → j < offs.length → offs.getD i 0 ≤ offs.getD j 0) :
    findFirstVisibleColumn sl offs = linearFirstVisibleColumn sl offs := by
  unfold findFirstVisibleColumn
  apply firstLoop_correct sl offs hmono (offs.length + 1) 0 ((offs.length : Int) - 1) 0
    (by omega) (by omega) (by omega) (by omega)
  · intro k _ hk
    omega
  · intro k hk hk2
    omega
  · left
    exact ⟨rfl, rfl⟩

theorem linearGEAux_of_forall_lt (sr : Int) (B : List Int) :
    ∀ (i : Nat),
      (∀ k, k < B.length → B.getD k 0 < sr) →
      linearSmallestGEAux sr B i = none := by
  induction B with
  | nil => intro i _; rfl
  | cons o rest ih =>
    intro i h
    have ho : o < sr := by
      have := h 0 (by simp)
      simpa using this
    unfold linearSmallestGEAux
    rw [if_neg (not_le.mpr ho)]
    exact ih (i + 1) (fun k hk => by
      have := h (k + 1) (by simpa using Nat.succ_lt_succ hk)
      simpa using this)

theorem linearGEAux_append_skip (sr : Int) (A : List Int) :
    ∀ (B : List Int) (i : Nat),
      (∀ k, k < A.length → A.getD k 0 < sr) →
      linearSmallestGEAux sr (A ++ B) i = linearSmallestGEAux sr B (i + A.length) := by
  induction A with
  | nil => intro B i _; rfl
  | cons o rest ih =>
    intro B i h
    have ho : o < sr := by
      have := h 0 (by simp)
      simpa using this
    show (if sr ≤ o then some (i : Int) else linearSmallestGEAux sr (rest ++ B) (i + 1)) = _
    rw [if_neg (not_le.mpr ho)]
    rw [ih B (i + 1) (fun k hk => by
      have := h (k + 1) (by simpa using Nat.succ_lt_succ hk)
      simpa using this)]
    congr 1
    simp
    omega

theorem linearGEAux_head (sr : Int) (B : List Int) (i : Nat)
    (hB : B ≠ []) (hhead : sr ≤ B.getD 0 0) :
    linearSmallestGEAux sr B i = some (i : Int) := by
  cases B with
  | nil => exact absurd rfl hB
  | cons o rest =>
    have : sr ≤ o := by simpa using hhead
    unfold linearSmallestGEAux
    rw [if_pos this]

theorem linearLast_boundary (sr : Int) (offs : List Int) (l : Nat)
    (hl : l ≤ offs.length)
    (hbelow : ∀ k, k < l → offs.getD k 0 < sr)
    (habove : ∀ k, l ≤ k → k < offs.length → sr ≤ offs.getD k 0) :
    (linearSmallestGEAux sr offs 0).getD ((offs.length : Int) - 1) =
      if l = offs.length then (offs.length : Int) - 1 else (l : Int) := by
  have htl : (offs.take l).length = l := by
    rw [List.length_take]
    omega
  have hsplit : offs.take l ++ offs.drop l = offs := List.take_append_drop l offs
  have hval : linearSmallestGEAux sr offs 0 =
      (if l = offs.length then Option.none else some (l : Int)) := by
    conv_lhs => rw [← hsplit]
    rw [linearGEAux_append_skip sr (offs.take l) (offs.drop l) 0 (fun k hk => by
      rw [htl] at hk
      rw [getD_take offs l k hk]
      exact hbelow k hk)]
    rw [htl, Nat.zero_add]
    by_cases hend : l = offs.length
    · subst hend
      rw [List.drop_length]
      rw [if_pos rfl]
      rfl
    · have hdne : offs.drop l ≠ [] := by
        intro hcon
        have := List.length_drop l offs
        rw [hcon] at this
        simp at this
        omega
      rw [linearGEAux_head sr (offs.drop l) l hdne (by
        rw [getD_drop]
        exact habove (l + 0) (by omega) (by omega))]
      rw [if_neg hend]
  rw [hval]
  by_cases hend : l = offs.length
  · rw [if_pos hend, if_pos hend]
    rfl
  · rw [if_neg hend, if_neg hend]
    rfl

theorem lastLoop_correct (sr : Int) (offs : List Int)
    (hmono : ∀ i j : Nat, i ≤ j → j < offs.length → offs.getD i 0 ≤ offs.getD j 0) :
    ∀ (fuel : Nat) (l r res : Int),
      (r + 1 - l).toNat < fuel →
      0 ≤ l → r ≤ (offs.length : Int) - 1 → l ≤ r + 1 →
      (∀ k : Nat, k < offs.length → (k : Int) < l → offs.getD k 0 < sr) →
      (∀ k : Nat, k < offs.length → r < (k : Int) → sr ≤ offs.getD k 0) →
      ((r = (offs.length : Int) - 1 ∧ res = (offs.length : Int) - 1) ∨
        (r ≤ (offs.length : Int) - 2 ∧ res = r + 1)) →
      lastLoop sr offs fuel l r res =
        (linearSmallestGEAux sr offs 0).getD ((offs.length : Int) - 1) := by
  intro fuel
  induction fuel with
  | zero => intro l r res hfuel _ _ _ _ _ _; omega
  | succ n ih =>
    intro l r res hfuel h0 hr hlr hbelow habove hres
    by_cases hcase : l ≤ r
    · have hmb : l ≤ jsFloorDiv (l + r) 2 ∧ jsFloorDiv (l + r) 2 ≤ r := by
        unfold jsFloorDiv
        rw [Int.fdiv_eq_ediv _ (by norm_num)]
        omega
      set mid := jsFloorDiv (l + r) 2 with hmiddef
      have hmid0 : 0 ≤ mid := le_trans h0 hmb.1
      have hmlen : mid.toNat < offs.length := by omega
      have hjs : jsIndex offs mid = some (offs.getD mid.toNat 0) :=
        jsIndex_in_range offs mid hmid0 hmlen
      show (if l ≤ r then
          match jsIndex offs mid with
          | none => res
          | some offset =>
            if offset < sr then lastLoop sr offs n (mid + 1) r res
            else lastLoop sr offs n l (mid - 1) mid
        else res) = _
      rw [if_pos hcase, hjs]
      by_cases hlt : offs.getD mid.toNat 0 < sr
      · show (if offs.getD mid.toNat 0 < sr then lastLoop sr offs n (mid + 1) r res
            else lastLoop sr offs n l (mid - 1) mid) = _
        rw [if_pos hlt]
        apply ih (mid + 1) r res (by omega) (by omega) hr (by omega)
        · intro k hk hkm
          by_cases hkl : (k : Int) < l
          · exact hbelow k hk hkl
          · have hkmid : k ≤ mid.toNat := by omega
            exact lt_of_le_of_lt (hmono k mid.toNat hkmid hmlen) hlt
        · exact habove
        · exact hres
      · show (if offs.getD mid.toNat 0 < sr then lastLoop sr offs n (mid + 1) r res
            else lastLoop sr offs n l (mid - 1) mid) = _
        rw [if_neg hlt]
        have hge : sr ≤ offs.getD mid.toNat 0 := not_lt.mp hlt
        apply ih l (mid - 1) mid (by omega) h0 (by omega) (by omega) hbelow
        · intro k hk hkm
          by_cases hkr : r < (k : Int)
          · exact habove k hk hkr
          · have hkmid : mid.toNat ≤ k := by omega
            exact le_trans hge (hmono mid.toNat k hkmid hk)
        · right
          constructor
          · omega
          · omega
    · show (if l ≤ r then
          match jsIndex offs (jsFloorDiv (l + r) 2) with
          | none => res
          | some offset =>
            if offset < sr then lastLoop sr offs n (jsFloorDiv (l + r) 2 + 1) r res
            else lastLoop sr offs n l (jsFloorDiv (l + r) 2 - 1) (jsFloorDiv (l + r) 2)
        else res) = _
      rw [if_neg hcase]
      have hl_eq : l = r + 1 := by omega
      rw [linearLast_boundary sr offs l.toNat (by omega)
        (fun k hk => hbelow k (by omega) (by omega))
        (fun k hk1 hk2 => habove k hk2 (by omega))]
      rcases hres with ⟨hrend, hresv⟩ | ⟨hrmid, hresv⟩
      · rw [if_pos (by omega)]
        omega
      · rw [if_neg (by omega)]
        omega

theorem findLast_eq_linear (sr : Int) (offs : List Int)
    (hmono : ∀ i j : Nat, i ≤ j → j < offs.length → offs.getD i 0 ≤ offs.getD j 0) :
    findLastVisibleColumn sr offs = linearLastVisibleColumn sr offs := by
  unfold findLastVisibleColumn linearLastVisibleColumn
  congr 1
  congr 1
  apply lastLoop_correct sr offs hmono (offs.length + 1) 0 ((offs.length : Int) - 1)
    ((offs.length : Int) - 1) (by omega) (by omega) (by omega) (by omega)
  · intro k _ hk
    omega
  · intro k hk hk2
    omega
  · left
    exact ⟨rfl, rfl⟩

theorem computeColumnOffsetsGo_all_gt (columns : List GridColumn) :
    ∀ (cumulative : Int), (∀ c ∈ columns, 0 < c.width) →
      ∀ x ∈ computeColumnOffsetsGo cumulative columns, cumulative < x := by
  induction columns with
  | nil => intro cum _ x hx; cases hx
  | cons c rest ih =>
    intro cum h x hx
    rcases List.mem_cons.mp hx with rfl | hx
    · have := h c (by simp)
      omega
    · have := ih (cum + c.width) (fun d hd => h d (by simp [hd])) x hx
      have := h c (by simp)
      omega

theorem computeColumnOffsetsGo_pairwise (columns : List GridColumn) :
    ∀ (cumulative : Int), (∀ c ∈ columns, 0 < c.width) →
      List.Pairwise (· ≤ ·) (computeColumnOffsetsGo cumulative columns) := by
  induction columns with
  | nil => intro cum _; exact List.Pairwise.nil
  | cons c rest ih =>
    intro cum h
    refine List.Pairwise.cons ?_ (ih (cum + c.width) (fun d hd => h d (by simp [hd])))
    intro x hx
    exact le_of_lt (computeColumnOffsetsGo_all_gt rest (cum + c.width)
      (fun d hd => h d (by simp [hd])) x hx)

theorem computeColumnOffsets_pairwise (columns : List GridColumn)
    (h : ∀ c ∈ columns, 0 < c.width) :
    List.Pairwise (· ≤ ·) (computeColumnOffsets columns) := by
  refine List.Pairwise.cons ?_ (computeColumnOffsetsGo_pairwise columns 0 h)
  intro x hx
  exact le_of_lt (computeColumnOffsetsGo_all_gt columns 0 h x hx)

/-- C9: for every column schema of size 1..1000 with positive widths and
every scroll position, the binary searches findFirstVisibleColumn and
findLastVisibleColumn return the same column indices as exhaustive linear
scans of the offsets array using the same invariants. -/
theorem c9_binary_search_agrees_with_linear_scan (columns : List GridColumn)
    (scrollLeft scrollRight : Int)
    (_hlen1 : 1 ≤ columns.length) (_hlen2 : columns.length ≤ 1000)
    (hw : ∀ c ∈ columns, 0 < c.width) :
    findFirstVisibleColumn scrollLeft (computeColumnOffsets columns) =
      linearFirstVisibleColumn scrollLeft (computeColumnOffsets columns) ∧
    findLastVisibleColumn scrollRight (computeColumnOffsets columns) =
      linearLastVisibleColumn scrollRight (computeColumnOffsets columns) := by
  have hmono := fun i j hij hj =>
    pairwise_getD_mono (computeColumnOffsets columns)
      (computeColumnOffsets_pairwise columns hw) i j hij hj
  exact ⟨findFirst_eq_linear scrollLeft _ hmono, findLast_eq_linear scrollRight _ hmono⟩

theorem c9_binary_search_agrees_with_linear_scan_witness :
    (findFirstVisibleColumn 320 (computeColumnOffsets twoColumnSchema.columns) =
      linearFirstVisibleColumn 320 (computeColumnOffsets twoColumnSchema.columns) ∧
    findLastVisibleColumn 150 (computeColumnOffsets twoColumnSchema.columns) =
      linearLastVisibleColumn 150 (computeColumnOffsets twoColumnSchema.columns)) ∧
    findFirstVisibleColumn 320 (computeColumnOffsets twoColumnSchema.columns) = 2 ∧
    findLastVisibleColumn 150 (computeColumnOffsets twoColumnSchema.columns) = 1 :=
  ⟨c9_binary_search_agrees_with_linear_scan twoColumnSchema.columns 320 150
      (by decide) (by decide) (by decide),
    by decide, by decide⟩

/-! ### Helper lemmas for the sort comparator (C6) -/

theorem strCmp_le_iff (a b : String) : strCmp a b ≤ 0 ↔ a ≤ b := by
  unfold strCmp
  split_ifs with h1 h2
  · simp [le_of_lt h1]
  · simp [not_le.mpr h2]
  · have : a = b := le_antisymm (not_lt.mp h2) (not_lt.mp h1)
    simp [this]

theorem strCmp_neg (a b : String) : strCmp b a = -strCmp a b := by
  unfold strCmp
  rcases lt_trichotomy a b with h | h | h
  · simp [h, asymm h]
  · subst h
    simp
  · simp [h, asymm h]

theorem strCmp_eq_zero_iff (a b : String) : strCmp a b = 0 ↔ a = b := by
  unfold strCmp
  split_ifs with h1 h2
  · simp [ne_of_lt h1]
  · simp [(ne_of_lt h2).symm]
  · simp [le_antisymm (not_lt.mp h2) (not_lt.mp h1)]

theorem strCmp_self (a : String) : strCmp a a = 0 := by
  unfold strCmp
  simp

theorem valCmp_neg (a b : CellValue) (m : Int) : valCmp b a m = -valCmp a b m := by
  cases a <;> cases b <;> simp only [valCmp]
  all_goals try rw [strCmp_self]
  all_goals try rw [strCmp_neg]
  all_goals ring

theorem sortCmp_antisymm (stack : List SortDescriptor) (a b : GridRow) :
    sortCmp stack b a = -sortCmp stack a b := by
  induction stack with
  | nil => exact strCmp_neg _ _
  | cons d rest ih =>
    by_cases hd : d.direction = SortDirection.none
    · simp only [sortCmp, if_pos hd]
      exact ih
    · by_cases he : rowGet a d.columnId = rowGet b d.columnId
      · simp only [sortCmp, if_neg hd, if_pos he, if_pos he.symm]
        exact ih
      · have he' : rowGet b d.columnId ≠ rowGet a d.columnId := fun h => he h.symm
        simp only [sortCmp, if_neg hd, if_neg he, if_neg he']
        exact valCmp_neg _ _ _

theorem sortCmp_of_tiesOn (stack : List SortDescriptor) (a b : GridRow)
    (h : tiesOn stack a b) :
    sortCmp stack a b = strCmp (jsString (rowGet a "id")) (jsString (rowGet b "id")) := by
  induction stack with
  | nil => rfl
  | cons d rest ih =>
    have hrest : tiesOn rest a b := fun d' hd' => h d' (List.mem_cons_of_mem _ hd')
    by_cases hd : d.direction = SortDirection.none
    · simp only [sortCmp, if_pos hd]
      exact ih hrest
    · have he := h d (List.mem_cons_self _ _) hd
      simp only [sortCmp, if_neg hd, if_pos he]
      exact ih hrest

theorem strCmp_ge_iff (a b : String) : 0 ≤ strCmp a b ↔ b ≤ a := by
  rw [show strCmp a b = -strCmp b a from strCmp_neg b a, ← strCmp_le_iff b a]
  omega

theorem sortCmp_cons_none (d : SortDescriptor) (rest : List SortDescriptor)
    (a b : GridRow) (h : d.direction = SortDirection.none) :
    sortCmp (d :: rest) a b = sortCmp rest a b := by
  simp only [sortCmp, if_pos h]

theorem sortCmp_cons_eq (d : SortDescriptor) (rest : List SortDescriptor)
    (a b : GridRow) (hd : d.direction ≠ SortDirection.none)
    (h : rowGet a d.columnId = rowGet b d.columnId) :
    sortCmp (d :: rest) a b = sortCmp rest a b := by
  simp only [sortCmp, if_neg hd, if_pos h]

theorem sortCmp_cons_ne (d : SortDescriptor) (rest : List SortDescriptor)
    (a b : GridRow) (hd : d.direction ≠ SortDirection.none)
    (h : rowGet a d.columnId ≠ rowGet b d.columnId) :
    sortCmp (d :: rest) a b =
      valCmp (rowGet a d.columnId) (rowGet b d.columnId)
        (if d.direction = SortDirection.asc then 1 else -1) := by
  simp only [sortCmp, if_neg hd, if_neg h]

theorem sortCmp_trans (stack : List SortDescriptor) (a b c : GridRow)
    (hhom : ∀ d ∈ stack, d.direction ≠ SortDirection.none →
      ((∃ x, rowGet a d.columnId = CellValue.num x) ∧
       (∃ y, rowGet b d.columnId = CellValue.num y) ∧
       (∃ z, rowGet c d.columnId = CellValue.num z)) ∨
      ((∃ x, rowGet a d.columnId = CellValue.str x) ∧
       (∃ y, rowGet b d.columnId = CellValue.str y) ∧
       (∃ z, rowGet c d.columnId = CellValue.str z)))
    (hab : sortCmp stack a b ≤ 0) (hbc : sortCmp stack b c ≤ 0) :
    sortCmp stack a c ≤ 0 := by
  induction stack with
  | nil =>
    simp only [sortCmp] at hab hbc ⊢
    rw [strCmp_le_iff] at hab hbc ⊢
    exact le_trans hab hbc
  | cons d rest ih =>
    have hhomr : ∀ d' ∈ rest, d'.direction ≠ SortDirection.none →
        ((∃ x, rowGet a d'.columnId = CellValue.num x) ∧
         (∃ y, rowGet b d'.columnId = CellValue.num y) ∧
         (∃ z, rowGet c d'.columnId = CellValue.num z)) ∨
        ((∃ x, rowGet a d'.columnId = CellValue.str x) ∧
         (∃ y, rowGet b d'.columnId = CellValue.str y) ∧
         (∃ z, rowGet c d'.columnId = CellValue.str z)) :=
      fun d' hd' => hhom d' (List.mem_cons_of_mem _ hd')
    by_cases hd : d.direction = SortDirection.none
    · rw [sortCmp_cons_none d rest a b hd] at hab
      rw [sortCmp_cons_none d rest b c hd] at hbc
      rw [sortCmp_cons_none d rest a c hd]
      exact ih hhomr hab hbc
    · rcases hhom d (List.mem_cons_self _ _) hd with
        ⟨⟨x, hax⟩, ⟨y, hby⟩, ⟨z, hcz⟩⟩ | ⟨⟨x, hax⟩, ⟨y, hby⟩, ⟨z, hcz⟩⟩
      · -- numeric column
        by_cases hxy : x = y <;> by_cases hyz : y = z
        · rw [sortCmp_cons_eq d rest a b hd (by rw [hax, hby, hxy])] at hab
          rw [sortCmp_cons_eq d rest b c hd (by rw [hby, hcz, hyz])] at hbc
          rw [sortCmp_cons_eq d rest a c hd (by rw [hax, hcz, hxy, hyz])]
          exact ih hhomr hab hbc
        · have hxz : x ≠ z := by omega
          rw [sortCmp_cons_ne d rest b c hd (by rw [hby, hcz]; simp [hyz])] at hbc
          rw [sortCmp_cons_ne d rest a c hd (by rw [hax, hcz]; simp [hxz])]
          rw [hby, hcz] at hbc
          rw [hax, hcz]
          simp only [valCmp] at hbc ⊢
          subst hxy
          exact hbc
        · have hxz : x ≠ z := by omega
          rw [sortCmp_cons_ne d rest a b hd (by rw [hax, hby]; simp [hxy])] at hab
          rw [sortCmp_cons_ne d rest a c hd (by rw [hax, hcz]; simp [hxz])]
          rw [hax, hby] at hab
          rw [hax, hcz]
          simp only [valCmp] at hab ⊢
          subst hyz
          exact hab
        · rw [sortCmp_cons_ne d rest a b hd (by rw [hax, hby]; simp [hxy])] at hab
          rw [sortCmp_cons_ne d rest b c hd (by rw [hby, hcz]; simp [hyz])] at hbc
          rw [hax, hby] at hab
          rw [hby, hcz] at hbc
          simp only [valCmp] at hab hbc
          by_cases hxz : x = z
          · exfalso
            by_cases hasc : d.direction = SortDirection.asc <;>
              simp [hasc] at hab hbc <;> omega
          · rw [sortCmp_cons_ne d rest a c hd (by rw [hax, hcz]; simp [hxz])]
            rw [hax, hcz]
            simp only [valCmp]
            by_cases hasc : d.direction = SortDirection.asc <;>
              simp [hasc] at hab hbc ⊢ <;> omega
      · -- string column
        by_cases hxy : x = y <;> by_cases hyz : y = z
        · rw [sortCmp_cons_eq d rest a b hd (by rw [hax, hby, hxy])] at hab
          rw [sortCmp_cons_eq d rest b c hd (by rw [hby, hcz, hyz])] at hbc
          rw [sortCmp_cons_eq d rest a c hd (by rw [hax, hcz, hxy, hyz])]
          exact ih hhomr hab hbc
        · have hxz : x ≠ z := by rw [hxy]; exact hyz
          rw [sortCmp_cons_ne d rest b c hd (by rw [hby, hcz]; simp [hyz])] at hbc
          rw [sortCmp_cons_ne d rest a c hd (by rw [hax, hcz]; simp [hxz])]
          rw [hby, hcz] at hbc
          rw [hax, hcz]
          simp only [valCmp, jsString] at hbc ⊢
          subst hxy
          exact hbc
        · have hxz : x ≠ z := fun h => hxy (hyz ▸ h)
          rw [sortCmp_cons_ne d rest a b hd (by rw [hax, hby]; simp [hxy])] at hab
          rw [sortCmp_cons_ne d rest a c hd (by rw [hax, hcz]; simp [hxz])]
          rw [hax, hby] at hab
          rw [hax, hcz]
          simp only [valCmp, jsString] at hab ⊢
          subst hyz
          exact hab
        · rw [sortCmp_cons_ne d rest a b hd (by rw [hax, hby]; simp [hxy])] at hab
          rw [sortCmp_cons_ne d rest b c hd (by rw [hby, hcz]; simp [hyz])] at hbc
          rw [hax, hby] at hab
          rw [hby, hcz] at hbc
          simp only [valCmp, jsString] at hab hbc
          by_cases hxz : x = z
          · exfalso
            subst hxz
            by_cases hasc : d.direction = SortDirection.asc <;>
              simp [hasc] at hab hbc
            · rw [strCmp_le_iff] at hab hbc
              exact hxy (le_antisymm hab hbc)
            · rw [strCmp_ge_iff] at hab hbc
              exact hxy (le_antisymm hbc hab)
          · rw [sortCmp_cons_ne d rest a c hd (by rw [hax, hcz]; simp [hxz])]
            rw [hax, hcz]
            simp only [valCmp, jsString]
            by_cases hasc : d.direction = SortDirection.asc <;>
              simp [hasc] at hab hbc ⊢
            · rw [strCmp_le_iff] at hab hbc ⊢
              exact le_trans hab hbc
            · rw [strCmp_ge_iff] at hab hbc ⊢
              exact le_trans hbc hab

theorem mem_sortInsert (cmp : GridRow → GridRow → Int) (x : GridRow) :
    ∀ (l : List GridRow) (a : GridRow), a ∈ sortInsert cmp x l ↔ a = x ∨ a ∈ l := by
  intro l
  induction l with
  | nil => intro a; simp [sortInsert]
  | cons y ys ih =>
    intro a
    unfold sortInsert
    by_cases h : cmp x y ≤ 0
    · rw [if_pos h]
      simp
    · rw [if_neg h]
      simp [ih]
      tauto

theorem mem_stableSort (cmp : GridRow → GridRow → Int) :
    ∀ (l : List GridRow) (a : GridRow), a ∈ stableSort cmp l ↔ a ∈ l := by
  intro l
  induction l with
  | nil => intro a; simp [stableSort]
  | cons y ys ih =>
    intro a
    unfold stableSort
    rw [mem_sortInsert, ih]
    simp

theorem pairwise_sortInsert (cmp : GridRow → GridRow → Int) (P : GridRow → Prop)
    (hanti : ∀ u v, cmp v u = -cmp u v)
    (htrans : ∀ u v w, P u → P v → P w → cmp u v ≤ 0 → cmp v w ≤ 0 → cmp u w ≤ 0)
    (x : GridRow) (hx : P x) :
    ∀ (l : List GridRow), (∀ y ∈ l, P y) →
      l.Pairwise (fun u v => cmp u v ≤ 0) →
      (sortInsert cmp x l).Pairwise (fun u v => cmp u v ≤ 0) := by
  intro l
  induction l with
  | nil => intro _ _; simp [sortInsert]
  | cons y ys ih =>
    intro hl hp
    rcases List.pairwise_cons.mp hp with ⟨hy_all, hys⟩
    unfold sortInsert
    by_cases h : cmp x y ≤ 0
    · rw [if_pos h]
      refine List.Pairwise.cons ?_ hp
      intro z hz
      rcases List.mem_cons.mp hz with rfl | hz
      · exact h
      · exact htrans x y z hx (hl y (by simp)) (hl z (by simp [hz])) h (hy_all z hz)
    · rw [if_neg h]
      refine List.Pairwise.cons ?_ (ih (fun u hu => hl u (by simp [hu])) hys)
      intro z hz
      rcases (mem_sortInsert cmp x ys z).mp hz with hzx | hz
      · rw [hzx, hanti x y]
        omega
      · exact hy_all z hz

theorem pairwise_stableSort (cmp : GridRow → GridRow → Int) (P : GridRow → Prop)
    (hanti : ∀ u v, cmp v u = -cmp u v)
    (htrans : ∀ u v w, P u → P v → P w → cmp u v ≤ 0 → cmp v w ≤ 0 → cmp u w ≤ 0) :
    ∀ (l : List GridRow), (∀ y ∈ l, P y) →
      (stableSort cmp l).Pairwise (fun u v => cmp u v ≤ 0) := by
  intro l
  induction l with
  | nil => intro _; simp [stableSort]
  | cons y ys ih =>
    intro hl
    unfold stableSort
    refine pairwise_sortInsert cmp P hanti htrans y (hl y (by simp)) (stableSort cmp ys)
      (fun u hu => hl u (by simp [(mem_stableSort cmp ys u).mp hu]))
      (ih (fun u hu => hl u (by simp [hu])))

theorem stableSort_of_pairwise (cmp : GridRow → GridRow → Int) :
    ∀ (l : List GridRow), l.Pairwise (fun u v => cmp u v ≤ 0) →
      stableSort cmp l = l := by
  intro l
  induction l with
  | nil => intro _; rfl
  | cons y ys ih =>
    intro hp
    rcases List.pairwise_cons.mp hp with ⟨hy_all, hys⟩
    unfold stableSort
    rw [ih hys]
    cases ys with
    | nil => rfl
    | cons z zs =>
      unfold sortInsert
      rw [if_pos (hy_all z (by simp))]

/-- C6 as stated is false on the empty-stack clause: multiSortData with an
empty sort stack returns the data in its original order rather than
ordering rows by string comparison of their id field; here ids "b", "a"
stay in that order even though "b" compares greater than "a". -/
theorem c6_empty_stack_counterexample :
    multiSortData [{ cells := [("id", CellValue.str "b")] },
        { cells := [("id", CellValue.str "a")] }] [] =
      [{ cells := [("id", CellValue.str "b")] },
        { cells := [("id", CellValue.str "a")] }] ∧
    0 < strCmp (jsString (rowGet { cells := [("id", CellValue.str "b")] } "id"))
        (jsString (rowGet { cells := [("id", CellValue.str "a")] } "id")) := by
  constructor
  · rfl
  · simp [rowGet, List.lookup, jsString, strCmp]
    decide

/-- C6 amended: multiSortData is a pure function of its inputs (the source
dataset is untouched); with an empty stack it returns the data in its
original order; with a nonempty stack, provided every active descriptor's
column holds values of a single comparison type across the dataset (all
numbers or all strings - with mixed types the JS comparator can be
intransitive and Array.prototype.sort's output is implementation-defined),
sorting twice with the same stack yields the identical row order, and any
two rows that tie on every active descriptor appear in the output ordered
by string comparison of their id field. -/
theorem c6_sort_deterministic_amended (data : List GridRow)
    (sortStack : List SortDescriptor)
    (hne : sortStack ≠ [])
    (hhom : homogeneousColumns data sortStack) :
    multiSortData data ([] : List SortDescriptor) = data ∧
    multiSortData (multiSortData data sortStack) sortStack =
      multiSortData data sortStack ∧
    (multiSortData data sortStack).Pairwise (fun u v => tiesOn sortStack u v →
      strCmp (jsString (rowGet u "id")) (jsString (rowGet v "id")) ≤ 0) := by
  have hmsd : multiSortData data sortStack = stableSort (sortCmp sortStack) data := by
    unfold multiSortData
    rw [if_neg hne]
  have htrans : ∀ u v w, u ∈ data → v ∈ data → w ∈ data →
      sortCmp sortStack u v ≤ 0 → sortCmp sortStack v w ≤ 0 →
      sortCmp sortStack u w ≤ 0 := by
    intro u v w hu hv hw
    apply sortCmp_trans
    intro d hd hdn
    rcases hhom d hd hdn with hnum | hstr
    · exact Or.inl ⟨hnum u hu, hnum v hv, hnum w hw⟩
    · exact Or.inr ⟨hstr u hu, hstr v hv, hstr w hw⟩
  have hanti : ∀ u v, sortCmp sortStack v u = -(sortCmp sortStack u v) :=
    fun u v => sortCmp_antisymm _ u v
  have hpw : (stableSort (sortCmp sortStack) data).Pairwise
      (fun u v => sortCmp sortStack u v ≤ 0) :=
    pairwise_stableSort _ (fun r => r ∈ data) hanti htrans data (fun y hy => hy)
  refine ⟨by simp [multiSortData], ?_, ?_⟩
  · have houter : multiSortData (stableSort (sortCmp sortStack) data) sortStack =
        stableSort (sortCmp sortStack) (stableSort (sortCmp sortStack) data) := by
      unfold multiSortData
      rw [if_neg hne]
    rw [hmsd, houter]
    exact stableSort_of_pairwise _ _ hpw
  · rw [hmsd]
    refine hpw.imp ?_
    intro u v huv hties
    rw [sortCmp_of_tiesOn sortStack u v hties] at huv
    exact huv

theorem c6_sort_deterministic_amended_witness :
    multiSortData [{ cells := [("id", CellValue.str "b"), ("v", CellValue.num 2)] },
        { cells := [("id", CellValue.str "a"), ("v", CellValue.num 2)] }]
      ([] : List SortDescriptor) =
      [{ cells := [("id", CellValue.str "b"), ("v", CellValue.num 2)] },
        { cells := [("id", CellValue.str "a"), ("v", CellValue.num 2)] }] ∧
    multiSortData (multiSortData
        [{ cells := [("id", CellValue.str "b"), ("v", CellValue.num 2)] },
          { cells := [("id", CellValue.str "a"), ("v", CellValue.num 2)] }]
        [{ columnId := "v", direction := SortDirection.asc }])
      [{ columnId := "v", direction := SortDirection.asc }] =
      multiSortData
        [{ cells := [("id", CellValue.str "b"), ("v", CellValue.num 2)] },
          { cells := [("id", CellValue.str "a"), ("v", CellValue.num 2)] }]
        [{ columnId := "v", direction := SortDirection.asc }] ∧
    (multiSortData
        [{ cells := [("id", CellValue.str "b"), ("v", CellValue.num 2)] },
          { cells := [("id", CellValue.str "a"), ("v", CellValue.num 2)] }]
        [{ columnId := "v", direction := SortDirection.asc }]).Pairwise
      (fun u v => tiesOn [{ columnId := "v", direction := SortDirection.asc }] u v →
        strCmp (jsString (rowGet u "id")) (jsString (rowGet v "id")) ≤ 0) :=
  c6_sort_deterministic_amended
    [{ cells := [("id", CellValue.str "b"), ("v", CellValue.num 2)] },
      { cells := [("id", CellValue.str "a"), ("v", CellValue.num 2)] }]
    [{ columnId := "v", direction := SortDirection.asc }]
    (by decide) (by decide)
